import Mathlib

/-!
Shallow embedding of the `systest` test-sequencing engine
(`src/systest.py`, version 5.12.0).

The relevant Python code is single-logical-threaded except for parallel
groups: `_TestThread` objects are started and immediately joined in
`run_sequential_tests`, so only `run_parallel_tests` produces genuine
concurrency.  The shared mutable state is the per-run failure latch
`Sequencer.run_failed`; we model execution as explicit state passing of
that latch, interpreting the children of a parallel group one after the
other in submission order (a fixed schedule; all the properties proved
below are about serial structures, about state after the join point, or
about dry-run mode, where the choice of schedule is irrelevant).

Timing values (`dry_run()` estimates, measured wall-clock durations,
`finish_time` sums) are modelled as exact integers in a fixed decimal
subdivision of a second (tenths suffice for every duration appearing in
the specification): the engine only adds durations and compares the
resulting finish times, and on such inputs those operations agree with
the exact ones.  The wall-clock duration measured for a test when it is
executed normally is an opaque per-test value `wallTime`.  Python's
`re.search(pattern, name)` is modelled as an opaque Boolean matcher
`String → Bool` carried in the configuration.
-/

namespace Systest

/-- The exception kinds distinguished by `_TestThread.run_test`
(`src/systest.py:1075-1104`): `TestCaseSkippedError`,
`TestCaseXPassedError`, `TestCaseXFailedError`, and every other
exception (including `TestCaseFailedError`), each carrying its
`str(e)` message. -/
inductive Signal where
  | skippedSig (msg : String)
  | xpassedSig (msg : String)
  | xfailedSig (msg : String)
  | failedSig (msg : String)
deriving DecidableEq

/-- The five terminal result strings of `TestCase`
(`src/systest.py:223-227`). -/
inductive RKind where
  | PASSED
  | FAILED
  | SKIPPED
  | XPASSED
  | XFAILED
deriving DecidableEq

/-- A test case as the engine sees it: a name (for the filter), the
behaviour of `setup()`, `run()` and `teardown()` (`none` means the call
returns normally, `some e` means it raises `e`), the value returned by
`dry_run()`, and the wall-clock duration that would be measured when
the test is executed normally. -/
structure TC where
  name : String
  setupExc : Option Signal
  runExc : Option Signal
  teardownExc : Option Signal
  dryRunTime : Int
  wallTime : Int
deriving DecidableEq

/-- Sequencer configuration: constructor arguments `dry_run` and
`force_serial_execution` and `testcase_pattern` (`src/systest.py:540-551`),
plus the per-run option `continue_on_failure` (`src/systest.py:601`).
`pattern = none` models `testcase_pattern is None`; `some p` models a
compiled pattern whose `re.search` against a name is `p name`. -/
structure Config where
  continueOnFailure : Bool
  dryRun : Bool
  forceSerial : Bool
  pattern : Option (String → Bool)

/-- Which lifecycle methods of a test case were invoked during one
`run_test` call. -/
structure ExecLog where
  setupCalled : Bool
  runCalled : Bool
  teardownCalled : Bool
  dryRunCalled : Bool
deriving DecidableEq

/-- The fields `run_test` assigns to the test object in its `finally`
block (`src/systest.py:1117-1119`), plus the invocation log. -/
structure TCRecord where
  result : RKind
  message : Option String
  executionTime : Int
  slog : ExecLog
deriving DecidableEq

/-- The tally of `Sequencer.summary_count` (`src/systest.py:482-490`,
`616-659`). -/
structure Result where
  passed : Nat
  failed : Nat
  skipped : Nat
  xpassed : Nat
  xfailed : Nat
  total : Nat
deriving DecidableEq

/-- The nested test structure accepted by `Sequencer.run`: a test case
leaf, a Python `list` (serial group) or a Python `tuple` (parallel
group). -/
inductive Tests where
  | leaf (tc : TC) : Tests
  | serial (ts : List Tests) : Tests
  | parallel (ts : List Tests) : Tests

/-- The same shape after execution: each leaf carries the record left
on the test object by `run_test`, or `none` when `run_test` was never
invoked on it (its `result` attribute stays `None`). -/
inductive OutTree where
  | leaf (tc : TC) (record : Option TCRecord) : OutTree
  | serial (ts : List OutTree) : OutTree
  | parallel (ts : List OutTree) : OutTree

/-- `Sequencer.is_testcase_enabled` (`src/systest.py:554-561`). -/
def isEnabled (cfg : Config) (tc : TC) : Bool :=
  match cfg.pattern with
  | none => true
  | some p => p tc.name

/-- Log of a `run_test` call that invoked none of the lifecycle
methods. -/
def noLog : ExecLog := ⟨false, false, false, false⟩

/-- `setup(); try: run() finally: teardown()`
(`src/systest.py:1043-1048` and `1051-1056`): if `setup()` raises, its
exception propagates and `teardown()` is not called; otherwise
`teardown()` always runs after `run()`, and an exception raised by
`teardown()` replaces the one raised by `run()` (Python `finally`
semantics). -/
def lifecycle (tc : TC) : ExecLog × Option Signal :=
  match tc.setupExc with
  | some e => (⟨true, false, false, false⟩, some e)
  | none =>
    (⟨true, true, true, false⟩,
      match tc.teardownExc with
      | some e2 => some e2
      | none => tc.runExc)

/-- `_TestThread.run_test_normal` (`src/systest.py:1040-1060`): filter
check, then the `continue_on_failure` / `run_failed` latch check, then
the lifecycle; returns the invocation log and the escaping exception,
if any. -/
def runTestNormal (cfg : Config) (runFailed : Bool) (tc : TC) :
    ExecLog × Option Signal :=
  if isEnabled cfg tc then
    if cfg.continueOnFailure then
      lifecycle tc
    else
      if !runFailed then
        lifecycle tc
      else
        (noLog, some (.skippedSig "Testcase skipped by failure."))
  else
    (noLog, some (.skippedSig "Testcase disabled by filter."))

/-- `_TestThread.run_test` (`src/systest.py:1062-1120`): in dry-run
mode only `dry_run()` is consulted and the result is `PASSED`;
otherwise the exception escaping `run_test_normal` is classified, the
failure latch `sequencer.run_failed` is set on a generic exception, the
record is written in the `finally` block (execution time is the
`dry_run()` value in dry-run mode and the measured wall-clock duration
otherwise), and the exception is re-raised.  Returns the new latch
state, the record written to the test object, and the escaping
exception. -/
def runTest (cfg : Config) (runFailed : Bool) (tc : TC) :
    Bool × TCRecord × Option Signal :=
  if cfg.dryRun then
    (runFailed,
      ⟨.PASSED, none, tc.dryRunTime, ⟨false, false, false, true⟩⟩,
      none)
  else
    match runTestNormal cfg runFailed tc with
    | (lg, none) =>
      (runFailed, ⟨.PASSED, none, tc.wallTime, lg⟩, none)
    | (lg, some (.skippedSig m)) =>
      (runFailed, ⟨.SKIPPED, some m, tc.wallTime, lg⟩, some (.skippedSig m))
    | (lg, some (.xpassedSig m)) =>
      (runFailed, ⟨.XPASSED, some m, tc.wallTime, lg⟩, some (.xpassedSig m))
    | (lg, some (.xfailedSig m)) =>
      (runFailed, ⟨.XFAILED, some m, tc.wallTime, lg⟩, some (.xfailedSig m))
    | (lg, some (.failedSig m)) =>
      (true, ⟨.FAILED, some m, tc.wallTime, lg⟩, some (.failedSig m))

/-- `_TestThread.run` (`src/systest.py:1021-1038`): the thread result
derived from the exception escaping `run_tests`. -/
def threadResultOfExc : Option Signal → RKind
  | none => .PASSED
  | some (.skippedSig _) => .SKIPPED
  | some (.xpassedSig _) => .XPASSED
  | some (.xfailedSig _) => .XFAILED
  | some (.failedSig _) => .FAILED

/-- `True` exactly for Python `list` arguments, the ones `isinstance(test,
list)` matches in `run_sequential_tests` (`src/systest.py:1133`). -/
def isSerialGroup : Tests → Bool
  | .serial _ => true
  | _ => false

mutual

/-- An element skipped by the `continue` in `run_sequential_tests`:
`run_test` is never invoked on any of its leaves, so every leaf keeps
`result = None`. -/
def unexecuted : Tests → OutTree
  | .leaf tc => .leaf tc none
  | .serial ts => .serial (unexecutedList ts)
  | .parallel ts => .parallel (unexecutedList ts)

def unexecutedList : List Tests → List OutTree
  | [] => []
  | t :: ts => unexecuted t :: unexecutedList ts

end

mutual

/-- `_TestThread.run` + `run_tests` (`src/systest.py:1021-1038` and
`1167-1180`) for one worker thread: returns the failure-latch state
after the thread has been joined, the thread's `result`, and the
output shape.  A serial group's `run_sequential_tests` never raises, so
`run` always overwrites the thread result with `PASSED` for it (the
`self.result = thread.result` assignment inside `run_sequential_tests`
is later overwritten at `src/systest.py:1030`); the same holds for a
parallel group run under `force_serial_execution`.  A genuinely
parallel group raises `TestCaseFailedError` at the join point when some
child thread ended `FAILED` (`src/systest.py:1161-1165`), leaving the
thread result at its initial `FAILED`. -/
def threadRun (cfg : Config) (st : Bool) : Tests → Bool × RKind × OutTree
  | .leaf tc =>
    let r := runTest cfg st tc
    (r.1, threadResultOfExc r.2.2, .leaf tc (some r.2.1))
  | .serial ts =>
    let r := runSeqTests cfg st false ts
    (r.1, .PASSED, .serial r.2)
  | .parallel ts =>
    if cfg.forceSerial then
      let r := runSeqTests cfg st false ts
      (r.1, .PASSED, .parallel r.2)
    else
      let r := runParTests cfg st ts
      (r.1,
        if r.2.any (fun c => c.1 == RKind.FAILED) then .FAILED else .PASSED,
        .parallel (r.2.map Prod.snd))

/-- `_TestThread.run_sequential_tests` (`src/systest.py:1122-1142`):
one element at a time, each on a started-and-immediately-joined thread.
When the previous element's thread ended `FAILED`, the flag is reset
and, if the next element is a Python `list`, that element is skipped
entirely (`continue`); the `continue_on_failure` option is not
consulted here. -/
def runSeqTests (cfg : Config) (st : Bool) (prev : Bool) :
    List Tests → Bool × List OutTree
  | [] => (st, [])
  | t :: rest =>
    if prev && isSerialGroup t then
      let r := runSeqTests cfg st false rest
      (r.1, unexecuted t :: r.2)
    else
      let a := threadRun cfg st t
      let r := runSeqTests cfg a.1 (a.2.1 == RKind.FAILED) rest
      (r.1, a.2.2 :: r.2)

/-- The children of `_TestThread.run_parallel_tests`
(`src/systest.py:1144-1159`), interpreted under the fixed schedule that
runs each child thread to completion in submission order; returns the
latch state after all joins and each child's `(thread result, output)`
pair. -/
def runParTests (cfg : Config) (st : Bool) :
    List Tests → Bool × List (RKind × OutTree)
  | [] => (st, [])
  | t :: rest =>
    let a := threadRun cfg st t
    let r := runParTests cfg a.1 rest
    (r.1, (a.2.1, a.2.2) :: r.2)

end

/-- `Sequencer.run` (`src/systest.py:563-614`): resets the `run_failed`
latch to `False`, then runs `list(tests)` on a fresh thread, i.e. as a
serial group. -/
def sequencerRun (cfg : Config) (tests : List Tests) : List OutTree :=
  (runSeqTests cfg false false tests).2

mutual

/-- The per-test branch of `Sequencer.summary_count`
(`src/systest.py:621-635`) together with its recursion: a leaf whose
`result` attribute was never set falls into the `else` branch and
counts as skipped. -/
def countTree (r : Result) : OutTree → Result
  | .leaf _ rec =>
    match rec with
    | some rc =>
      match rc.result with
      | .PASSED => { r with passed := r.passed + 1, total := r.total + 1 }
      | .FAILED => { r with failed := r.failed + 1, total := r.total + 1 }
      | .XPASSED => { r with xpassed := r.xpassed + 1, total := r.total + 1 }
      | .XFAILED => { r with xfailed := r.xfailed + 1, total := r.total + 1 }
      | .SKIPPED => { r with skipped := r.skipped + 1, total := r.total + 1 }
    | none => { r with skipped := r.skipped + 1, total := r.total + 1 }
  | .serial ts => countList r ts
  | .parallel ts => countList r ts

def countList (r : Result) : List OutTree → Result
  | [] => r
  | t :: ts => countList (countTree r t) ts

end

/-- `Sequencer.summary_count` (`src/systest.py:616-659`) applied to the
output of one `run` call. -/
def summaryCount (outs : List OutTree) : Result :=
  countList ⟨0, 0, 0, 0, 0, 0⟩ outs

/-- The `xfail` decorator (`src/systest.py:163-183`) as a
transformation of the behaviour of the wrapped `run()` body: a raised
`TestCaseSkippedError` is re-raised unchanged, any other exception is
replaced by `TestCaseXFailedError(message)`, and a normal return is
replaced by raising `TestCaseXPassedError(message)`.  `str(e)` of an
error built with `message=None` is the string "None". -/
def xfailBody (message : Option String) (body : Option Signal) :
    Option Signal :=
  match body with
  | some (.skippedSig m) => some (.skippedSig m)
  | some _ => some (.xfailedSig (message.getD "None"))
  | none => some (.xpassedSig (message.getD "None"))

/-- The record `run_test` leaves on a test object in dry-run mode:
result `PASSED`, no message, execution time from `dry_run()`, and no
lifecycle method invoked. -/
def dryRecord (tc : TC) : TCRecord :=
  ⟨.PASSED, none, tc.dryRunTime, ⟨false, false, false, true⟩⟩

mutual

/-- Closed form of a dry-run execution's output shape. -/
def dryOut : Tests → OutTree
  | .leaf tc => .leaf tc (some (dryRecord tc))
  | .serial ts => .serial (dryOutList ts)
  | .parallel ts => .parallel (dryOutList ts)

def dryOutList : List Tests → List OutTree
  | [] => []
  | t :: ts => dryOut t :: dryOutList ts

end

mutual

/-- Decidable check that every leaf of an output tree satisfies `P`. -/
def leavesOK (P : TC → Option TCRecord → Bool) : OutTree → Bool
  | .leaf tc rec => P tc rec
  | .serial ts => leavesOKList P ts
  | .parallel ts => leavesOKList P ts

def leavesOKList (P : TC → Option TCRecord → Bool) : List OutTree → Bool
  | [] => true
  | t :: ts => leavesOK P t && leavesOKList P ts

end

/-! ## The dependency graph builder (`Sequencer.dot_digraph`) -/

/-- A handle to an executed node as it appears in a `parents` list:
the node's object identity (modelled as a natural number) and its
computed `finish_time`. -/
structure PNode where
  ident : Nat
  finishTime : Int
deriving DecidableEq

/-- A test object as `dot_digraph` sees it after execution: identity,
the `result` attribute (possibly still unset) and `execution_time`. -/
structure DLeaf where
  ident : Nat
  result : Option RKind
  executionTime : Int
deriving DecidableEq

/-- The submitted structure as `dot_digraph` walks it. -/
inductive DTree where
  | leaf (l : DLeaf) : DTree
  | serial (ts : List DTree) : DTree
  | parallel (ts : List DTree) : DTree

/-- What `_test` (`src/systest.py:805-815`) assigns to an executed test
object: the `parents` list it was given, the chosen `start_parent` and
the computed `finish_time`. -/
structure GEntry where
  parents : List PNode
  startParent : Option PNode
  finishTime : Int
deriving DecidableEq

/-- One iteration of the loop in `get_start_parent`
(`src/systest.py:794-803`): the accumulator is
`(start_time, start_parent)` and is replaced only on a strictly larger
`finish_time`. -/
def gspStep (acc : Int × Option PNode) (p : PNode) : Int × Option PNode :=
  if acc.1 < p.finishTime then (p.finishTime, some p) else acc

/-- `get_start_parent` (`src/systest.py:794-803`): fold over the
parents starting from `start_time = -1.0`, `start_parent = None`. -/
def getStartParent (ps : List PNode) : Option PNode :=
  (ps.foldl gspStep (-1, none)).2

mutual

/-- `recursivly` of `dot_digraph` (`src/systest.py:805-834`): threads
the running `parents` list through the structure and accumulates, in
visit order, the `(identity, entry)` pairs written to executed test
objects.  An executed leaf records its parents, start parent and
finish time and passes `[itself]` on; a leaf whose `result` is unset is
transparent.  (When `get_start_parent` returns `None` for an executed
leaf the Python code would crash dereferencing it; that case is
unreachable from `dot_digraph`'s entry point, where every `parents`
list contains a node with nonnegative finish time, and the model
returns a junk finish time there.) -/
def dWalk (parents : List PNode) : DTree → List (Nat × GEntry) × List PNode
  | .leaf l =>
    match l.result with
    | some _ =>
      let sp := getStartParent parents
      let ft :=
        match sp with
        | some p => p.finishTime + l.executionTime
        | none => l.executionTime
      ([(l.ident, ⟨parents, sp, ft⟩)], [⟨l.ident, ft⟩])
    | none => ([], parents)
  | .serial ts => dWalkSeq parents ts
  | .parallel ts => dWalkPar parents ts

/-- `sequential_tests` of `dot_digraph` (`src/systest.py:817-821`). -/
def dWalkSeq (parents : List PNode) :
    List DTree → List (Nat × GEntry) × List PNode
  | [] => ([], parents)
  | t :: ts =>
    let a := dWalk parents t
    let r := dWalkSeq a.2 ts
    (a.1 ++ r.1, r.2)

/-- `parallel_tests` of `dot_digraph` (`src/systest.py:823-824`): each
child starts from the shared input parents; the outputs are
flattened. -/
def dWalkPar (parents : List PNode) :
    List DTree → List (Nat × GEntry) × List PNode
  | [] => ([], [])
  | t :: ts =>
    let a := dWalk parents t
    let r := dWalkPar parents ts
    (a.1 ++ r.1, a.2 ++ r.2)

end

/-- The synthetic `begin` node (`src/systest.py:909-912`): result
`PASSED`, `finish_time = 0`, reserved identity `0`. -/
def beginPNode : PNode := ⟨0, 0⟩

/-- Reserved identity of the synthetic `end` node. -/
def endIdent : Nat := 1

/-- The walk at `src/systest.py:919-923`: `parents = [begin]`, then
`for test in self.tests + [end]: parents = recursivly(parents, test)`,
with `end` a zero-duration `PASSED` test case.  Returns the entries
written to the executed test objects. -/
def dotEntries (tests : List DTree) : List (Nat × GEntry) :=
  (dWalkSeq [beginPNode] (tests ++ [.leaf ⟨endIdent, some .PASSED, 0⟩])).1

/-- Attribute lookup on a node by identity: nodes never walked (such as
`begin`) keep the `TestCase.__init__` defaults `parents = []`,
`start_parent = None`. -/
def infoOf (entries : List (Nat × GEntry)) (n : Nat) : GEntry :=
  match entries.find? (fun e => e.1 == n) with
  | some e => e.2
  | none => ⟨[], none, 0⟩

/-- Stable insertion into a list sorted by descending `finishTime`:
the new element goes after every element whose `finishTime` is greater
than or equal to its own. -/
def insertDesc (x : PNode) : List PNode → List PNode
  | [] => [x]
  | y :: ys =>
    if y.finishTime < x.finishTime then x :: y :: ys else y :: insertDesc x ys

/-- `sorted(test.parents, key=lambda p: p.finish_time, reverse=True)`
(`src/systest.py:856`): Python's stable sort, descending by finish
time.  Modelled as stable insertion sort, which produces the same
(unique) stably-descending ordering. -/
def sortFinishDesc (ps : List PNode) : List PNode :=
  ps.foldl (fun acc x => insertDesc x acc) []

/-- The edges dictionary of `dot_digraph`, in creation order: each
entry is `((parent identity, child identity), is_bold)`. -/
abbrev EdgeList := List ((Nat × Nat) × Bool)

/-- `edge_name(parent, test) in edges` (`src/systest.py:857`). -/
def hasEdge (es : EdgeList) (p c : Nat) : Bool :=
  es.any (fun e => e.1 == (p, c))

/-- `test.start_parent == parent` (`src/systest.py:860`), an object
identity comparison. -/
def startParentIs (g : Nat → GEntry) (n : Nat) (p : PNode) : Bool :=
  match (g n).startParent with
  | some sp => sp.ident == p.ident
  | none => false

/-- `edges_recursivly` (`src/systest.py:854-865`): visit the node's
parents in descending finish-time order; skip a `(parent, child)` pair
whose edge already exists; otherwise create the edge — bold exactly
when walking in bold mode and the parent is the node's start parent —
and recurse into the parent in the created edge's mode.  The `fuel`
argument makes the recursion into a parent structurally terminating;
callers pass more fuel than the number of edges that can ever be
created, so the cutoff is never reached. -/
def edgesGo (g : Nat → GEntry) :
    Nat → List PNode → EdgeList → Nat → Bool → EdgeList
  | 0, _, es, _, _ => es
  | _ + 1, [], es, _, _ => es
  | fuel + 1, p :: ps, es, n, bold =>
    let es' :=
      if hasEdge es p.ident n then
        es
      else
        let b := bold && startParentIs g n p
        edgesGo g fuel (sortFinishDesc (g p.ident).parents)
          (es ++ [((p.ident, n), b)]) p.ident b
    edgesGo g fuel ps es' n bold

/-- `edges = {}; edges_recursivly(edges, end, "bold")`
(`src/systest.py:925-927`) on the entries computed by the walk.  Along
any single call chain of `edgesGo` every descent into a parent first
creates an edge that did not exist on that chain, so chains contain at
most `P` descents (`P` = the total number of parent slots) separated by
walks of at most `P` list positions; `(P + 1) * (P + 2)` fuel therefore
exceeds the depth of any chain and the cutoff is never reached. -/
def dotEdges (tests : List DTree) : EdgeList :=
  let entries := dotEntries tests
  let g := infoOf entries
  let p := (entries.map (fun e => e.2.parents.length)).sum
  edgesGo g ((p + 1) * (p + 2)) (sortFinishDesc (g endIdent).parents) []
    endIdent true

/-! ## Helper lemmas -/

/-- When the test is enabled and either `continue_on_failure` is set or
the failure latch is clear, `run_test_normal` is exactly the
setup/run/teardown lifecycle. -/
theorem runTestNormal_enabled (cfg : Config) (st : Bool) (tc : TC)
    (hen : isEnabled cfg tc = true)
    (hlatch : cfg.continueOnFailure = true ∨ st = false) :
    runTestNormal cfg st tc = lifecycle tc := by
  rcases hlatch with h | h
  · simp [runTestNormal, hen, h]
  · cases hc : cfg.continueOnFailure <;> simp [runTestNormal, hen, h, hc]

/-! ## C4: setup failure suppresses teardown; otherwise teardown is
guaranteed -/

/-- C4: for every test case execution attempt that is not a dry run,
is enabled, and is not short-circuited by the failure latch: if
`setup()` raises then `teardown()` (and `run()`) is never invoked and
the outcome is `FAILED` — or `SKIPPED`/`XPASSED`/`XFAILED` when the
raised exception declares that kind; if `setup()` returns normally
then `run()` is invoked and `teardown()` is always invoked as well,
including when `run()` raises (any `runExc` whatsoever). -/
theorem runTest_setup_teardown (cfg : Config) (st : Bool) (tc : TC)
    (hdry : cfg.dryRun = false)
    (hen : isEnabled cfg tc = true)
    (hlatch : cfg.continueOnFailure = true ∨ st = false) :
    (∀ e, tc.setupExc = some e →
      (runTest cfg st tc).2.1.slog.teardownCalled = false ∧
      (runTest cfg st tc).2.1.slog.runCalled = false ∧
      (runTest cfg st tc).2.1.result =
        (match e with
         | .failedSig _ => RKind.FAILED
         | .skippedSig _ => RKind.SKIPPED
         | .xpassedSig _ => RKind.XPASSED
         | .xfailedSig _ => RKind.XFAILED)) ∧
    (tc.setupExc = none →
      (runTest cfg st tc).2.1.slog.runCalled = true ∧
      (runTest cfg st tc).2.1.slog.teardownCalled = true) := by
  have hn := runTestNormal_enabled cfg st tc hen hlatch
  constructor
  · intro e hse
    cases e <;> simp [runTest, hdry, hn, lifecycle, hse]
  · intro hse
    cases htd : tc.teardownExc with
    | none =>
      cases hre : tc.runExc with
      | none => simp [runTest, hdry, hn, lifecycle, hse, htd, hre]
      | some e => cases e <;> simp [runTest, hdry, hn, lifecycle, hse, htd, hre]
    | some e => cases e <;> simp [runTest, hdry, hn, lifecycle, hse, htd]

/-- Witness for C4 at concrete inputs: a test whose `setup()` raises a
generic exception ends `FAILED` without `teardown()`; a test whose
`setup()` succeeds but whose `run()` raises still gets `teardown()`. -/
theorem runTest_setup_teardown_witness :
    (runTest ⟨true, false, false, none⟩ false
        ⟨"s", some (.failedSig "setup boom"), none, none, 0, 1⟩).2.1.slog.teardownCalled
      = false ∧
    (runTest ⟨true, false, false, none⟩ false
        ⟨"s", some (.failedSig "setup boom"), none, none, 0, 1⟩).2.1.result
      = RKind.FAILED ∧
    (runTest ⟨true, false, false, none⟩ false
        ⟨"r", none, some (.failedSig "run boom"), none, 0, 1⟩).2.1.slog.teardownCalled
      = true := by
  refine ⟨?_, ?_, ?_⟩
  · exact ((runTest_setup_teardown ⟨true, false, false, none⟩ false
      ⟨"s", some (.failedSig "setup boom"), none, none, 0, 1⟩ rfl rfl
      (Or.inl rfl)).1 (.failedSig "setup boom") rfl).1
  · exact ((runTest_setup_teardown ⟨true, false, false, none⟩ false
      ⟨"s", some (.failedSig "setup boom"), none, none, 0, 1⟩ rfl rfl
      (Or.inl rfl)).1 (.failedSig "setup boom") rfl).2.2
  · exact ((runTest_setup_teardown ⟨true, false, false, none⟩ false
      ⟨"r", none, some (.failedSig "run boom"), none, 0, 1⟩ rfl rfl
      (Or.inl rfl)).2 rfl).2

/-! ## C7: the expected-failure wrapper -/

/-- C7: for a test whose `run()` body is wrapped by the `xfail`
decorator (and whose `setup()`/`teardown()` return normally, on an
enabled, non-short-circuited, non-dry-run attempt): a body that raises
an ordinary exception gives outcome `XFAILED`, a body that returns
normally gives `XPASSED`, and a body that raises the skip signal gives
`SKIPPED`, preserved rather than reinterpreted. -/
theorem xfail_outcomes (cfg : Config) (st : Bool) (tc : TC)
    (m : Option String) (body : Option Signal)
    (hdry : cfg.dryRun = false)
    (hen : isEnabled cfg tc = true)
    (hlatch : cfg.continueOnFailure = true ∨ st = false)
    (hse : tc.setupExc = none)
    (htd : tc.teardownExc = none)
    (hre : tc.runExc = xfailBody m body) :
    (runTest cfg st tc).2.1.result =
      (match body with
       | none => RKind.XPASSED
       | some (.skippedSig _) => RKind.SKIPPED
       | some (.xpassedSig _) => RKind.XFAILED
       | some (.xfailedSig _) => RKind.XFAILED
       | some (.failedSig _) => RKind.XFAILED) := by
  have hn := runTestNormal_enabled cfg st tc hen hlatch
  cases body with
  | none => simp [runTest, hdry, hn, lifecycle, hse, htd, hre, xfailBody]
  | some e =>
    cases e <;> simp [runTest, hdry, hn, lifecycle, hse, htd, hre, xfailBody]

/-- Witness for C7 at concrete inputs: a wrapped body raising a
generic exception ends `XFAILED`, a wrapped normally-returning body
ends `XPASSED`, and a wrapped body raising the skip signal ends
`SKIPPED`. -/
theorem xfail_outcomes_witness :
    (runTest ⟨true, false, false, none⟩ false
        ⟨"x1", none, xfailBody none (some (.failedSig "boom")), none, 0, 1⟩).2.1.result
      = RKind.XFAILED ∧
    (runTest ⟨true, false, false, none⟩ false
        ⟨"x2", none, xfailBody none none, none, 0, 1⟩).2.1.result
      = RKind.XPASSED ∧
    (runTest ⟨true, false, false, none⟩ false
        ⟨"x3", none, xfailBody none (some (.skippedSig "skip")), none, 0, 1⟩).2.1.result
      = RKind.SKIPPED := by
  refine ⟨?_, ?_, ?_⟩
  · exact xfail_outcomes ⟨true, false, false, none⟩ false
      ⟨"x1", none, xfailBody none (some (.failedSig "boom")), none, 0, 1⟩
      none (some (.failedSig "boom")) rfl rfl (Or.inl rfl) rfl rfl rfl
  · exact xfail_outcomes ⟨true, false, false, none⟩ false
      ⟨"x2", none, xfailBody none none, none, 0, 1⟩
      none none rfl rfl (Or.inl rfl) rfl rfl rfl
  · exact xfail_outcomes ⟨true, false, false, none⟩ false
      ⟨"x3", none, xfailBody none (some (.skippedSig "skip")), none, 0, 1⟩
      none (some (.skippedSig "skip")) rfl rfl (Or.inl rfl) rfl rfl rfl

/-! ## C9: the name filter -/

/-- C9: under the default `continue_on_failure` setting (or with the
failure latch clear) and outside dry-run mode, a test case's execution
is attempted (its `setup()` is invoked, and, when `setup()` returns
normally, its `run()` body is invoked) exactly when its name matches
the configured filter or no filter is configured — `isEnabled` is
`re.search(pattern, name)` with `pattern = None` mapping to enabled.
A test disabled by the filter transitions directly to `SKIPPED` with
message "Testcase disabled by filter." and none of
`setup()`/`run()`/`teardown()` is invoked. -/
theorem filter_enablement (cfg : Config) (st : Bool) (tc : TC)
    (hdry : cfg.dryRun = false)
    (hlatch : cfg.continueOnFailure = true ∨ st = false) :
    ((runTest cfg st tc).2.1.slog.setupCalled = true ↔
      isEnabled cfg tc = true) ∧
    (tc.setupExc = none →
      ((runTest cfg st tc).2.1.slog.runCalled = true ↔
        isEnabled cfg tc = true)) ∧
    (isEnabled cfg tc = false →
      (runTest cfg st tc).2.1.result = RKind.SKIPPED ∧
      (runTest cfg st tc).2.1.message = some "Testcase disabled by filter." ∧
      (runTest cfg st tc).2.1.slog = noLog) := by
  cases hen : isEnabled cfg tc with
  | true =>
    have hn := runTestNormal_enabled cfg st tc hen hlatch
    refine ⟨?_, ?_, ?_⟩
    · cases hse : tc.setupExc with
      | none =>
        cases htd : tc.teardownExc with
        | none =>
          cases hre : tc.runExc with
          | none => simp [runTest, hdry, hn, lifecycle, hse, htd, hre]
          | some e =>
            cases e <;> simp [runTest, hdry, hn, lifecycle, hse, htd, hre]
        | some e => cases e <;> simp [runTest, hdry, hn, lifecycle, hse, htd]
      | some e => cases e <;> simp [runTest, hdry, hn, lifecycle, hse]
    · intro hse
      cases htd : tc.teardownExc with
      | none =>
        cases hre : tc.runExc with
        | none => simp [runTest, hdry, hn, lifecycle, hse, htd, hre]
        | some e =>
          cases e <;> simp [runTest, hdry, hn, lifecycle, hse, htd, hre]
      | some e => cases e <;> simp [runTest, hdry, hn, lifecycle, hse, htd]
    · intro h
      exact absurd h (by simp)
  | false =>
    refine ⟨?_, ?_, ?_⟩ <;>
      simp [runTest, hdry, runTestNormal, hen, noLog]

/-- Witness for C9 at concrete inputs: with the filter matching only
names containing "a", the test named "a" has its body invoked and the
test named "b" is skipped by the filter with nothing invoked. -/
theorem filter_enablement_witness :
    (runTest ⟨true, false, false, some (fun n => n == "a")⟩ false
        ⟨"a", none, none, none, 0, 1⟩).2.1.slog.runCalled = true ∧
    (runTest ⟨true, false, false, some (fun n => n == "a")⟩ false
        ⟨"b", none, none, none, 0, 1⟩).2.1.result = RKind.SKIPPED ∧
    (runTest ⟨true, false, false, some (fun n => n == "a")⟩ false
        ⟨"b", none, none, none, 0, 1⟩).2.1.slog = noLog := by
  refine ⟨?_, ?_, ?_⟩
  · exact ((filter_enablement ⟨true, false, false, some (fun n => n == "a")⟩
      false ⟨"a", none, none, none, 0, 1⟩ rfl (Or.inl rfl)).2.1 rfl).mpr rfl
  · exact ((filter_enablement ⟨true, false, false, some (fun n => n == "a")⟩
      false ⟨"b", none, none, none, 0, 1⟩ rfl (Or.inl rfl)).2.2 rfl).1
  · exact ((filter_enablement ⟨true, false, false, some (fun n => n == "a")⟩
      false ⟨"b", none, none, none, 0, 1⟩ rfl (Or.inl rfl)).2.2 rfl).2.2

/-! ## C3: failure propagation out of a parallel group -/

/-- C3: after all children of a genuinely parallel group (no
`force_serial_execution`) have been joined, the group's thread result —
the one its enclosing serial context inspects for the skip-on-failure
bookkeeping — is `FAILED` if and only if at least one direct child
thread ended `FAILED`; otherwise it is `PASSED`, so in particular
children ending `SKIPPED`, `XPASSED` or `XFAILED` never mark the group
failed, and the signal never takes any other form that could surface
past `run()` (the raised `TestCaseFailedError` is caught by the generic
handler in `_TestThread.run`). -/
theorem parallel_group_failed_iff (cfg : Config) (st : Bool)
    (ts : List Tests) (hfs : cfg.forceSerial = false) :
    ((threadRun cfg st (.parallel ts)).2.1 = RKind.FAILED ↔
      ∃ c ∈ (runParTests cfg st ts).2, c.1 = RKind.FAILED) ∧
    ((threadRun cfg st (.parallel ts)).2.1 = RKind.FAILED ∨
      (threadRun cfg st (.parallel ts)).2.1 = RKind.PASSED) := by
  have h : (threadRun cfg st (.parallel ts)).2.1 =
      (if (runParTests cfg st ts).2.any (fun c => c.1 == RKind.FAILED)
        then RKind.FAILED else RKind.PASSED) := by
    simp [threadRun, hfs]
  rw [h]
  by_cases ha :
      (runParTests cfg st ts).2.any (fun c => c.1 == RKind.FAILED) = true
  · refine ⟨?_, Or.inl (by simp [ha])⟩
    simp only [ha, if_true]
    constructor
    · intro _
      obtain ⟨c, hc, hcf⟩ := List.any_eq_true.mp ha
      exact ⟨c, hc, by simpa using hcf⟩
    · intro _
      trivial
  · refine ⟨?_, Or.inr (by simp [ha])⟩
    rw [if_neg ha]
    constructor
    · intro hcontr
      exact absurd hcontr (by simp)
    · intro ⟨c, hc, hcf⟩
      exact absurd (List.any_eq_true.mpr ⟨c, hc, by simp [hcf]⟩) ha

/-- Witness for C3 at a concrete input: a parallel group with one
skipped child (raised by its own body), one xfailed child, and one
failed child signals `FAILED`; the same group without the failed child
signals nothing (thread result `PASSED`). -/
theorem parallel_group_failed_iff_witness :
    (threadRun ⟨true, false, false, none⟩ false
      (.parallel [.leaf ⟨"s", none, some (.skippedSig "skip"), none, 0, 1⟩,
                  .leaf ⟨"x", none, some (.xfailedSig "xf"), none, 0, 1⟩,
                  .leaf ⟨"f", none, some (.failedSig "boom"), none, 0, 1⟩])).2.1
      = RKind.FAILED ∧
    (threadRun ⟨true, false, false, none⟩ false
      (.parallel [.leaf ⟨"s", none, some (.skippedSig "skip"), none, 0, 1⟩,
                  .leaf ⟨"x", none, some (.xfailedSig "xf"), none, 0, 1⟩])).2.1
      = RKind.PASSED := by
  constructor
  · exact (parallel_group_failed_iff ⟨true, false, false, none⟩ false
      [.leaf ⟨"s", none, some (.skippedSig "skip"), none, 0, 1⟩,
       .leaf ⟨"x", none, some (.xfailedSig "xf"), none, 0, 1⟩,
       .leaf ⟨"f", none, some (.failedSig "boom"), none, 0, 1⟩] rfl).1.mpr
      ⟨(RKind.FAILED,
          .leaf ⟨"f", none, some (.failedSig "boom"), none, 0, 1⟩
            (some ⟨.FAILED, some "boom", 1, ⟨true, true, true, false⟩⟩)),
        List.Mem.tail _ (List.Mem.tail _ (List.Mem.head _)), rfl⟩
  · rcases (parallel_group_failed_iff ⟨true, false, false, none⟩ false
      [.leaf ⟨"s", none, some (.skippedSig "skip"), none, 0, 1⟩,
       .leaf ⟨"x", none, some (.xfailedSig "xf"), none, 0, 1⟩] rfl).2 with h | h
    · exact absurd ((parallel_group_failed_iff ⟨true, false, false, none⟩ false
        [.leaf ⟨"s", none, some (.skippedSig "skip"), none, 0, 1⟩,
         .leaf ⟨"x", none, some (.xfailedSig "xf"), none, 0, 1⟩] rfl).1.mp h)
        (by decide)
    · exact h

/-! ## C2: what follows a failed element in a serial group -/

/-- Counterexample to C2: with `continue_on_failure = true` (the
default), a nested serial group directly following a `FAILED` leaf is
not run — its sole leaf is never attempted (`run_test` is never
invoked on it, so its record is `none`), contradicting the claim that
a nested Serial group in that position has its execution attempted. -/
theorem serial_after_failure_counterexample :
    sequencerRun ⟨true, false, false, none⟩
      [.leaf ⟨"f", none, some (.failedSig "boom"), none, 0, 1⟩,
       .serial [.leaf ⟨"b", none, none, none, 0, 1⟩]] =
    [.leaf ⟨"f", none, some (.failedSig "boom"), none, 0, 1⟩
       (some ⟨.FAILED, some "boom", 1, ⟨true, true, true, false⟩⟩),
     .serial [.leaf ⟨"b", none, none, none, 0, 1⟩ none]] := rfl

/-- C2 as amended: in a serial group (under any `continue_on_failure`
setting, in particular the default `true`), when an element's thread
ends `FAILED`, the directly following element is still run normally if
it is a leaf test case or a parallel group, but a nested serial group
in that position is skipped entirely — none of its leaves is
attempted — because `run_sequential_tests` executes `continue` for a
`list` after a failure without consulting `continue_on_failure`. -/
theorem serial_after_failure_amended (cfg : Config) (st : Bool)
    (tcF : TC) (next : Tests) (rest : List Tests)
    (_hcont : cfg.continueOnFailure = true)
    (hf : (threadRun cfg st (.leaf tcF)).2.1 = RKind.FAILED) :
    (isSerialGroup next = false →
      (runSeqTests cfg st false (.leaf tcF :: next :: rest)).2 =
        (threadRun cfg st (.leaf tcF)).2.2 ::
        (threadRun cfg (threadRun cfg st (.leaf tcF)).1 next).2.2 ::
        (runSeqTests cfg
          (threadRun cfg (threadRun cfg st (.leaf tcF)).1 next).1
          ((threadRun cfg (threadRun cfg st (.leaf tcF)).1 next).2.1
            == RKind.FAILED)
          rest).2) ∧
    (isSerialGroup next = true →
      (runSeqTests cfg st false (.leaf tcF :: next :: rest)).2 =
        (threadRun cfg st (.leaf tcF)).2.2 ::
        unexecuted next ::
        (runSeqTests cfg (threadRun cfg st (.leaf tcF)).1 false rest).2) := by
  have hstep :
      runSeqTests cfg st false (.leaf tcF :: next :: rest) =
        ((runSeqTests cfg (threadRun cfg st (.leaf tcF)).1
            ((threadRun cfg st (.leaf tcF)).2.1 == RKind.FAILED)
            (next :: rest)).1,
         (threadRun cfg st (.leaf tcF)).2.2 ::
          (runSeqTests cfg (threadRun cfg st (.leaf tcF)).1
            ((threadRun cfg st (.leaf tcF)).2.1 == RKind.FAILED)
            (next :: rest)).2) := by
    simp [runSeqTests, isSerialGroup]
  constructor
  · intro hns
    rw [hstep]
    simp only [hf]
    have : (RKind.FAILED == RKind.FAILED) = true := rfl
    rw [this]
    simp [runSeqTests, hns]
  · intro hs
    rw [hstep]
    simp only [hf]
    have : (RKind.FAILED == RKind.FAILED) = true := rfl
    rw [this]
    simp [runSeqTests, hs]

/-- Witness for C2's amended statement at concrete inputs: after a
failed leaf, a following leaf is run (second conjunct's premise is
refuted concretely through the first conjunct) and a following serial
group is skipped. -/
theorem serial_after_failure_amended_witness :
    (runSeqTests ⟨true, false, false, none⟩ false false
      [.leaf ⟨"f", none, some (.failedSig "boom"), none, 0, 1⟩,
       .leaf ⟨"a", none, none, none, 0, 1⟩]).2 =
      [.leaf ⟨"f", none, some (.failedSig "boom"), none, 0, 1⟩
         (some ⟨.FAILED, some "boom", 1, ⟨true, true, true, false⟩⟩),
       .leaf ⟨"a", none, none, none, 0, 1⟩
         (some ⟨.PASSED, none, 1, ⟨true, true, true, false⟩⟩)] ∧
    (runSeqTests ⟨true, false, false, none⟩ false false
      [.leaf ⟨"f", none, some (.failedSig "boom"), none, 0, 1⟩,
       .serial [.leaf ⟨"b", none, none, none, 0, 1⟩]]).2 =
      [.leaf ⟨"f", none, some (.failedSig "boom"), none, 0, 1⟩
         (some ⟨.FAILED, some "boom", 1, ⟨true, true, true, false⟩⟩),
       unexecuted (.serial [.leaf ⟨"b", none, none, none, 0, 1⟩])] := by
  constructor
  · rw [(serial_after_failure_amended ⟨true, false, false, none⟩ false
      ⟨"f", none, some (.failedSig "boom"), none, 0, 1⟩
      (.leaf ⟨"a", none, none, none, 0, 1⟩) [] rfl rfl).1 rfl]
    rfl
  · rw [(serial_after_failure_amended ⟨true, false, false, none⟩ false
      ⟨"f", none, some (.failedSig "boom"), none, 0, 1⟩
      (.serial [.leaf ⟨"b", none, none, none, 0, 1⟩]) [] rfl rfl).2 rfl]
    rfl

/-! ## C1: `continue_on_failure = false` -/

/-- Counterexample to C1: running
`Serial([Fail, A, Serial([Fail2, B])])` with
`continue_on_failure = false`, the flat sibling `A` is not run — its
body is never attempted and it is raised `SKIPPED` by the process-wide
failure latch — and the final tally has `skipped = 3`, not `2`. -/
theorem skip_on_failure_counterexample :
    ((sequencerRun ⟨false, false, false, none⟩
        [.leaf ⟨"fail1", none, some (.failedSig "boom"), none, 0, 1⟩,
         .leaf ⟨"a", none, none, none, 0, 1⟩,
         .serial [.leaf ⟨"fail2", none, some (.failedSig "boom2"), none, 0, 1⟩,
                  .leaf ⟨"b", none, none, none, 0, 1⟩]])[1]? =
      some (.leaf ⟨"a", none, none, none, 0, 1⟩
        (some ⟨.SKIPPED, some "Testcase skipped by failure.", 1, noLog⟩))) ∧
    summaryCount (sequencerRun ⟨false, false, false, none⟩
        [.leaf ⟨"fail1", none, some (.failedSig "boom"), none, 0, 1⟩,
         .leaf ⟨"a", none, none, none, 0, 1⟩,
         .serial [.leaf ⟨"fail2", none, some (.failedSig "boom2"), none, 0, 1⟩,
                  .leaf ⟨"b", none, none, none, 0, 1⟩]]) =
      ⟨0, 1, 3, 0, 0, 4⟩ := by
  constructor <;> rfl

/-- C1 as amended: with `continue_on_failure = false`, once any test's
outcome is `FAILED` the process-wide latch makes every subsequent leaf
test of the run end `SKIPPED` with message "Testcase skipped by
failure." without its body being attempted.  Concretely, running
`Serial([Fail, A, Serial([Fail2, B])])` executes only `Fail`; `A`,
`Fail2` and `B` all end `SKIPPED` by the latch (the inner serial group
is still entered, because the element directly before it ended
`SKIPPED`, not `FAILED`), and the final tally is `failed = 1`,
`skipped = 3`, `total = 4`. -/
theorem skip_on_failure_amended :
    sequencerRun ⟨false, false, false, none⟩
      [.leaf ⟨"fail1", none, some (.failedSig "boom"), none, 0, 1⟩,
       .leaf ⟨"a", none, none, none, 0, 1⟩,
       .serial [.leaf ⟨"fail2", none, some (.failedSig "boom2"), none, 0, 1⟩,
                .leaf ⟨"b", none, none, none, 0, 1⟩]] =
      [.leaf ⟨"fail1", none, some (.failedSig "boom"), none, 0, 1⟩
         (some ⟨.FAILED, some "boom", 1, ⟨true, true, true, false⟩⟩),
       .leaf ⟨"a", none, none, none, 0, 1⟩
         (some ⟨.SKIPPED, some "Testcase skipped by failure.", 1, noLog⟩),
       .serial
         [.leaf ⟨"fail2", none, some (.failedSig "boom2"), none, 0, 1⟩
            (some ⟨.SKIPPED, some "Testcase skipped by failure.", 1, noLog⟩),
          .leaf ⟨"b", none, none, none, 0, 1⟩
            (some ⟨.SKIPPED, some "Testcase skipped by failure.", 1, noLog⟩)]] ∧
    summaryCount (sequencerRun ⟨false, false, false, none⟩
      [.leaf ⟨"fail1", none, some (.failedSig "boom"), none, 0, 1⟩,
       .leaf ⟨"a", none, none, none, 0, 1⟩,
       .serial [.leaf ⟨"fail2", none, some (.failedSig "boom2"), none, 0, 1⟩,
                .leaf ⟨"b", none, none, none, 0, 1⟩]]) =
      ⟨0, 1, 3, 0, 0, 4⟩ := by
  constructor <;> rfl

/-! ## Dry-run lemmas -/

mutual

/-- In dry-run mode a worker thread leaves the latch untouched, ends
`PASSED`, and produces the closed-form dry-run output. -/
theorem threadRun_dry (cfg : Config) (h : cfg.dryRun = true)
    (st : Bool) : (t : Tests) →
      threadRun cfg st t = (st, RKind.PASSED, dryOut t)
  | .leaf tc => by
    simp [threadRun, runTest, h, dryOut, dryRecord, threadResultOfExc]
  | .serial ts => by
    have hs := runSeqTests_dry cfg h st ts
    simp [threadRun, hs, dryOut]
  | .parallel ts => by
    by_cases hfs : cfg.forceSerial = true
    · have hs := runSeqTests_dry cfg h st ts
      simp [threadRun, hfs, hs, dryOut]
    · have hp := runParTests_dry cfg h st ts
      simp [threadRun, hfs, hp, dryOut, List.any_map, Function.comp]

theorem runSeqTests_dry (cfg : Config) (h : cfg.dryRun = true)
    (st : Bool) : (ts : List Tests) →
      runSeqTests cfg st false ts = (st, dryOutList ts)
  | [] => by simp [runSeqTests, dryOutList]
  | t :: ts => by
    have ht := threadRun_dry cfg h st t
    have hr := runSeqTests_dry cfg h st ts
    simp [runSeqTests, ht, hr, dryOutList,
      show (RKind.PASSED == RKind.FAILED) = false from rfl]

theorem runParTests_dry (cfg : Config) (h : cfg.dryRun = true)
    (st : Bool) : (ts : List Tests) →
      runParTests cfg st ts =
        (st, (dryOutList ts).map (fun o => (RKind.PASSED, o)))
  | [] => by simp [runParTests, dryOutList]
  | t :: ts => by
    have ht := threadRun_dry cfg h st t
    have hr := runParTests_dry cfg h st ts
    simp [runParTests, ht, hr, dryOutList]

end

mutual

/-- Every leaf of a dry-run output satisfies any predicate that holds
of the dry-run record. -/
theorem leavesOK_dryOut (P : TC → Option TCRecord → Bool)
    (hP : ∀ tc, P tc (some (dryRecord tc)) = true) :
    (t : Tests) → leavesOK P (dryOut t) = true
  | .leaf tc => by simp [dryOut, leavesOK, hP]
  | .serial ts => by
    simp [dryOut, leavesOK, leavesOKList_dryOut P hP ts]
  | .parallel ts => by
    simp [dryOut, leavesOK, leavesOKList_dryOut P hP ts]

theorem leavesOKList_dryOut (P : TC → Option TCRecord → Bool)
    (hP : ∀ tc, P tc (some (dryRecord tc)) = true) :
    (ts : List Tests) → leavesOKList P (dryOutList ts) = true
  | [] => by simp [dryOutList, leavesOKList]
  | t :: ts => by
    simp [dryOutList, leavesOKList, leavesOK_dryOut P hP t,
      leavesOKList_dryOut P hP ts]

end

/-! ## C8: dry-run execution times and bodies -/

/-- C8: when the sequencer is constructed in dry-run mode, a `run`
call produces, for every submitted test case, exactly the record whose
`execution_time` is that test's `dry_run()` return value — no
wall-clock measurement (`wallTime` does not appear in the output) —
with none of `setup()`, `run()`, `teardown()` invoked (only
`dry_run()`). -/
theorem dry_run_times_and_no_bodies (cfg : Config) (tests : List Tests)
    (h : cfg.dryRun = true) :
    sequencerRun cfg tests = dryOutList tests ∧
    leavesOKList
      (fun tc rec =>
        rec == some ⟨RKind.PASSED, none, tc.dryRunTime,
          ⟨false, false, false, true⟩⟩)
      (sequencerRun cfg tests) = true := by
  have hs := runSeqTests_dry cfg h false tests
  constructor
  · simp [sequencerRun, hs]
  · rw [show sequencerRun cfg tests = dryOutList tests by
      simp [sequencerRun, hs]]
    exact leavesOKList_dryOut _ (fun tc => by simp [dryRecord]) tests

/-- Witness for C8 at a concrete input: one leaf with distinct
`dry_run()` and wall-clock values inside a serial group; the output
records the `dry_run()` value 7, not the wall-clock value 99. -/
theorem dry_run_times_and_no_bodies_witness :
    sequencerRun ⟨true, true, false, none⟩
        [.serial [.leaf ⟨"t", none, some (.failedSig "never raised"), none, 7, 99⟩]] =
      [.serial [.leaf ⟨"t", none, some (.failedSig "never raised"), none, 7, 99⟩
        (some ⟨RKind.PASSED, none, 7, ⟨false, false, false, true⟩⟩)]] := by
  have hd := (dry_run_times_and_no_bodies ⟨true, true, false, none⟩
    [.serial [.leaf ⟨"t", none, some (.failedSig "never raised"), none, 7, 99⟩]]
    rfl).1
  rw [hd]
  rfl

/-! ## C10: dry-run bypasses the filter and the failure latch -/

/-- C10 (implicit claim): in dry-run mode the name filter and the
failure latch are never consulted: for an arbitrary configured pattern
and an arbitrary latch state, every submitted test case — including
one whose name the pattern does not match — ends `PASSED` with
`execution_time` equal to its `dry_run()` value, and the latch state
is returned unchanged.  The right-hand side `(st, PASSED, dryOut t)`
does not mention `cfg.pattern` or the latch at all, which is the
formal content of "bypasses the enablement and skip-on-failure checks
entirely". -/
theorem dry_run_bypasses_filter_and_latch (cfg : Config) (st : Bool)
    (t : Tests) (h : cfg.dryRun = true) :
    threadRun cfg st t = (st, RKind.PASSED, dryOut t) ∧
    leavesOK
      (fun tc rec =>
        (rec.map (fun rc => rc.result) == some RKind.PASSED) &&
        (rec.map (fun rc => rc.executionTime) == some tc.dryRunTime))
      (threadRun cfg st t).2.2 = true := by
  have ht := threadRun_dry cfg h st t
  refine ⟨ht, ?_⟩
  rw [ht]
  exact leavesOK_dryOut _ (fun tc => by simp [dryRecord]) t

/-- Witness for C10 at a concrete input: a pattern matching only names
equal to "a" and a set failure latch; the leaf named "b" (which the
pattern does not match) still ends `PASSED` with `execution_time` from
`dry_run()`. -/
theorem dry_run_bypasses_filter_and_latch_witness :
    threadRun ⟨false, true, false, some (fun n => n == "a")⟩ true
        (.leaf ⟨"b", none, none, none, 5, 42⟩) =
      (true, RKind.PASSED, .leaf ⟨"b", none, none, none, 5, 42⟩
        (some ⟨RKind.PASSED, none, 5, ⟨false, false, false, true⟩⟩)) := by
  have hd := (dry_run_bypasses_filter_and_latch
    ⟨false, true, false, some (fun n => n == "a")⟩ true
    (.leaf ⟨"b", none, none, none, 5, 42⟩) rfl).1
  rw [hd]
  rfl

/-! ## C5: parent recording in the graph builder -/

/-- Invariant of the `get_start_parent` loop: the fold either keeps
the accumulator (and then every element's finish time is bounded by
it) or lands on an element of the list that strictly exceeds the
initial bound and dominates every element. -/
theorem foldl_gspStep (ps : List PNode) (m : Int) (o : Option PNode) :
    (ps.foldl gspStep (m, o) = (m, o) ∧
      ∀ p ∈ ps, p.finishTime ≤ m) ∨
    (∃ sp ∈ ps, ps.foldl gspStep (m, o) = (sp.finishTime, some sp) ∧
      m < sp.finishTime ∧ ∀ p ∈ ps, p.finishTime ≤ sp.finishTime) := by
  induction ps generalizing m o with
  | nil => exact Or.inl ⟨rfl, by simp⟩
  | cons p ps ih =>
    by_cases hp : m < p.finishTime
    · have hstep : gspStep (m, o) p = (p.finishTime, some p) := by
        simp [gspStep, hp]
      rcases ih p.finishTime (some p) with ⟨heq, hall⟩ | ⟨sp, hsp, heq, hlt, hall⟩
      · refine Or.inr ⟨p, by simp, by simp [hstep, heq], hp, ?_⟩
        intro q hq
        rcases List.mem_cons.mp hq with h | h
        · exact h ▸ le_refl _
        · exact hall q h
      · refine Or.inr ⟨sp, by simp [hsp], by simp [hstep, heq],
          lt_trans hp hlt, ?_⟩
        intro q hq
        rcases List.mem_cons.mp hq with h | h
        · exact h ▸ le_of_lt hlt
        · exact hall q h
    · have hstep : gspStep (m, o) p = (m, o) := by
        simp [gspStep, hp]
      rcases ih m o with ⟨heq, hall⟩ | ⟨sp, hsp, heq, hlt, hall⟩
      · refine Or.inl ⟨by simp [hstep, heq], ?_⟩
        intro q hq
        rcases List.mem_cons.mp hq with h | h
        · exact h ▸ not_lt.mp hp
        · exact hall q h
      · refine Or.inr ⟨sp, by simp [hsp], by simp [hstep, heq], hlt, ?_⟩
        intro q hq
        rcases List.mem_cons.mp hq with h | h
        · exact h ▸ le_of_lt (lt_of_le_of_lt (not_lt.mp hp) hlt)
        · exact hall q h

/-- `get_start_parent` returns a member of the parents list whose
finish time dominates all of them, whenever some parent beats the
initial bound `-1.0`. -/
theorem getStartParent_spec (ps : List PNode)
    (h : ∃ p ∈ ps, (-1 : Int) < p.finishTime) :
    ∃ sp, getStartParent ps = some sp ∧ sp ∈ ps ∧
      ∀ p ∈ ps, p.finishTime ≤ sp.finishTime := by
  rcases foldl_gspStep ps (-1) none with ⟨heq, hall⟩ | ⟨sp, hsp, heq, _, hall⟩
  · obtain ⟨p, hp, hgt⟩ := h
    exact absurd (hall p hp) (not_le.mpr hgt)
  · exact ⟨sp, by simp [getStartParent, heq], hsp, hall⟩

/-- C5: in the graph builder's walk, every test case whose `result`
attribute is set records exactly the `parents` list it was given, gets
`start_parent = get_start_parent(parents)` — which, as soon as some
parent has finish time above the initial `-1.0` bound, is a member of
`parents` with maximal finish time — and gets
`finish_time = start_parent.finish_time + execution_time`, passing
itself on as the sole parent of what follows; a test whose `result` is
unset is transparent, passing its input parents through unchanged; and
the synthetic `begin` node has `finish_time = 0` and is the sole
recorded parent of the first submitted element. -/
theorem graph_parent_recording (parents : List PNode) (l : DLeaf) :
    (∀ r, l.result = some r →
      ∃ sp, getStartParent parents = some sp →
        dWalk parents (.leaf l) =
          ([(l.ident,
              ⟨parents, some sp, sp.finishTime + l.executionTime⟩)],
           [⟨l.ident, sp.finishTime + l.executionTime⟩])) ∧
    ((∃ p ∈ parents, (-1 : Int) < p.finishTime) →
      ∃ sp, getStartParent parents = some sp ∧ sp ∈ parents ∧
        (∀ p ∈ parents, p.finishTime ≤ sp.finishTime) ∧
        (∀ r, l.result = some r →
          dWalk parents (.leaf l) =
            ([(l.ident,
                ⟨parents, some sp, sp.finishTime + l.executionTime⟩)],
             [⟨l.ident, sp.finishTime + l.executionTime⟩]))) ∧
    (l.result = none → dWalk parents (.leaf l) = ([], parents)) ∧
    (beginPNode.finishTime = 0 ∧
      ∀ (rest : List DTree) (r : RKind), l.result = some r →
        ∃ rest2,
          dotEntries (.leaf l :: rest) =
            (l.ident,
              ⟨[beginPNode], some beginPNode,
                beginPNode.finishTime + l.executionTime⟩) :: rest2) := by
  refine ⟨?_, ?_, ?_, rfl, ?_⟩
  · intro r hl
    rcases hsp : getStartParent parents with _ | sp
    · exact ⟨⟨0, 0⟩, fun hc => absurd hc (by simp)⟩
    · exact ⟨sp, fun _ => by simp [dWalk, hl, hsp]⟩
  · intro h
    obtain ⟨sp, hsp, hmem, hmax⟩ := getStartParent_spec parents h
    exact ⟨sp, hsp, hmem, hmax, fun r hl => by simp [dWalk, hl, hsp]⟩
  · intro hl
    simp [dWalk, hl]
  · intro rest r hl
    have hb : getStartParent [beginPNode] = some beginPNode := rfl
    have h1 : dWalk [beginPNode] (.leaf l) =
        ([(l.ident,
            ⟨[beginPNode], some beginPNode,
              beginPNode.finishTime + l.executionTime⟩)],
         [⟨l.ident, beginPNode.finishTime + l.executionTime⟩]) := by
      simp [dWalk, hl, hb]
    refine ⟨(dWalkSeq [⟨l.ident, beginPNode.finishTime + l.executionTime⟩]
      (rest ++ [.leaf ⟨endIdent, some .PASSED, 0⟩])).1, ?_⟩
    simp [dotEntries, dWalkSeq, h1]

/-- Witness for C5 at concrete inputs: with parents of finish times 3
and 7, an executed leaf of duration 5 records those parents, picks the
finish-time-7 parent as start parent, and finishes at 12; an unset
leaf passes the parents through; and a first submitted element gets
`[begin]` as its recorded parents with begin finishing at 0. -/
theorem graph_parent_recording_witness :
    dWalk [⟨10, 3⟩, ⟨11, 7⟩] (.leaf ⟨2, some .PASSED, 5⟩) =
      ([(2, ⟨[⟨10, 3⟩, ⟨11, 7⟩], some ⟨11, 7⟩, 12⟩)], [⟨2, 12⟩]) ∧
    dWalk [⟨10, 3⟩, ⟨11, 7⟩] (.leaf ⟨2, none, 5⟩) =
      ([], [⟨10, 3⟩, ⟨11, 7⟩]) ∧
    (dotEntries [.leaf ⟨2, some .PASSED, 5⟩]).head? =
      some (2, ⟨[beginPNode], some beginPNode,
        beginPNode.finishTime + 5⟩) := by
  refine ⟨?_, ?_, ?_⟩
  · obtain ⟨sp, hsp, hmem, hmax, heq⟩ :=
      (graph_parent_recording [⟨10, 3⟩, ⟨11, 7⟩] ⟨2, some .PASSED, 5⟩).2.1
        ⟨⟨10, 3⟩, by simp, by decide⟩
    have hsp7 : sp = ⟨11, 7⟩ := by
      have h2 := hsp
      rw [show getStartParent [⟨10, 3⟩, ⟨11, 7⟩] = some ⟨11, 7⟩ from rfl] at h2
      exact (Option.some_injective _ h2).symm
    rw [heq .PASSED rfl, hsp7]
    rfl
  · exact (graph_parent_recording [⟨10, 3⟩, ⟨11, 7⟩] ⟨2, none, 5⟩).2.2.1 rfl
  · obtain ⟨rest2, h⟩ :=
      (graph_parent_recording [beginPNode] ⟨2, some .PASSED, 5⟩).2.2.2.2
        [] .PASSED rfl
    rw [h]
    rfl

/-! ## C6: critical-path marking -/

/-- Inserting into a descending-by-finish-time list permutes `x ::
l`. -/
theorem insertDesc_perm (x : PNode) (l : List PNode) :
    List.Perm (insertDesc x l) (x :: l) := by
  induction l with
  | nil => exact List.Perm.refl _
  | cons y ys ih =>
    unfold insertDesc
    by_cases h : y.finishTime < x.finishTime
    · simp only [if_pos h]
      exact List.Perm.refl _
    · simp only [if_neg h]
      exact List.Perm.trans (List.Perm.cons y ih) (List.Perm.swap x y ys)

/-- Inserting into a descending-by-finish-time sorted list keeps it
sorted. -/
theorem insertDesc_sorted (x : PNode) (l : List PNode)
    (hl : List.Sorted (fun a b => b.finishTime ≤ a.finishTime) l) :
    List.Sorted (fun a b => b.finishTime ≤ a.finishTime)
      (insertDesc x l) := by
  induction l with
  | nil => simp [insertDesc]
  | cons y ys ih =>
    rw [List.sorted_cons] at hl
    unfold insertDesc
    by_cases h : y.finishTime < x.finishTime
    · simp only [if_pos h]
      rw [List.sorted_cons]
      refine ⟨?_, List.sorted_cons.mpr hl⟩
      intro b hb
      rcases List.mem_cons.mp hb with hby | hbys
      · exact hby ▸ le_of_lt h
      · exact le_trans (hl.1 b hbys) (le_of_lt h)
    · simp only [if_neg h]
      rw [List.sorted_cons]
      refine ⟨?_, ih hl.2⟩
      intro b hb
      rcases List.mem_cons.mp ((insertDesc_perm x ys).mem_iff.mp hb)
        with hbx | hbys
      · exact hbx ▸ not_lt.mp h
      · exact hl.1 b hbys

/-- The fold underlying `sortFinishDesc` keeps the accumulator sorted
and permutes `acc ++ l`. -/
theorem foldl_insertDesc_spec (l acc : List PNode)
    (hacc : List.Sorted (fun a b => b.finishTime ≤ a.finishTime) acc) :
    List.Sorted (fun a b => b.finishTime ≤ a.finishTime)
      (l.foldl (fun acc x => insertDesc x acc) acc) ∧
    List.Perm (l.foldl (fun acc x => insertDesc x acc) acc) (acc ++ l) := by
  induction l generalizing acc with
  | nil => exact ⟨hacc, by simp⟩
  | cons x xs ih =>
    obtain ⟨hs, hp⟩ := ih (insertDesc x acc) (insertDesc_sorted x acc hacc)
    refine ⟨hs, List.Perm.trans hp ?_⟩
    have h1 : List.Perm (insertDesc x acc ++ xs) ((x :: acc) ++ xs) :=
      (insertDesc_perm x acc).append_right xs
    have h2 : List.Perm (x :: (acc ++ xs)) (acc ++ x :: xs) :=
      List.perm_middle.symm
    exact h1.trans h2

/-- C6: the backward critical-path walk visits each node's parents in
descending finish-time order — `sortFinishDesc` is a permutation of
the parents sorted descending by finish time — and, on the concrete
scenario of the specification (three parallel children of durations
1.4 s, 3.2 s and 0.1 s, in tenths of a second, feeding a common 1.0 s
successor), it styles exactly the edges on the start-parent chain from
`end` "bold": the bold path runs begin → the 3.2 s child (identity 3)
→ the successor (5) → end (1), every other predecessor edge is
"solid", and no `(parent, child)` pair is created twice. -/
theorem critical_path_marking :
    (∀ ps : List PNode,
      List.Sorted (fun a b => b.finishTime ≤ a.finishTime)
        (sortFinishDesc ps) ∧
      List.Perm (sortFinishDesc ps) ps) ∧
    dotEdges
      [.parallel [.leaf ⟨2, some .PASSED, 14⟩, .leaf ⟨3, some .PASSED, 32⟩,
                  .leaf ⟨4, some .PASSED, 1⟩],
       .leaf ⟨5, some .PASSED, 10⟩] =
      [((5, 1), true), ((3, 5), true), ((0, 3), true), ((2, 5), false),
       ((0, 2), false), ((4, 5), false), ((0, 4), false)] ∧
    ((dotEdges
      [.parallel [.leaf ⟨2, some .PASSED, 14⟩, .leaf ⟨3, some .PASSED, 32⟩,
                  .leaf ⟨4, some .PASSED, 1⟩],
       .leaf ⟨5, some .PASSED, 10⟩]).map Prod.fst).Nodup := by
  refine ⟨?_, by decide, by decide⟩
  intro ps
  have h := foldl_insertDesc_spec ps [] (by simp)
  exact ⟨h.1, by simpa [sortFinishDesc] using h.2⟩

end Systest
